import Mathlib

/-!
Verification of the TodoQueue ordered task store.

This file is a shallow embedding of the `TodoDatabase` class of
`src/todo_queue_app.py` (the identical class also appears in
`src/src/todoqueue/main.py`).  The SQLite `todos` table is modelled as a
list of rows in insertion (rowid) order together with the AUTOINCREMENT
counter.  Timestamps are modelled as natural numbers: the program stores
ISO-8601 strings produced by `datetime.now().isoformat()`, whose
lexicographic order (used by `ORDER BY completed_at DESC`) agrees with
chronological order.  Each database method that calls `datetime.now()`
takes the current time as an explicit argument.  `ORDER BY` is modelled
as a stable sort of the table scan.
-/

/-- A row of the `todos` table (dataclass `TodoItem` / `CREATE TABLE todos`). -/
structure TodoItem where
  id : Nat
  text : String
  category : String
  tags : String
  created_at : Nat
  completed_at : Option Nat
  status : String
  order_index : Int
  deriving Repr, DecidableEq

/-- The `todos` table: rows in insertion (rowid) order, plus the
AUTOINCREMENT counter (SQLite assigns ids 1, 2, 3, ...). -/
structure TodoDB where
  todos : List TodoItem
  next_id : Nat
  deriving Repr, DecidableEq

/-- A freshly created database file: no rows, first id will be 1. -/
def emptyDB : TodoDB := ⟨[], 1⟩

/-- The pending rows of the table, in rowid order. -/
def pendingOf (db : TodoDB) : List TodoItem :=
  db.todos.filter fun t => t.status == "pending"

/-- The completed rows of the table, in rowid order. -/
def completedOf (db : TodoDB) : List TodoItem :=
  db.todos.filter fun t => t.status == "completed"

/-- One step of the SQL aggregate MAX over a scan. -/
def maxStep (acc : Option Int) (x : Int) : Option Int :=
  some (match acc with | none => x | some m => max m x)

/-- SELECT MAX(order_index) FROM todos WHERE status = "pending"
(`add_todo`); NULL (`none`) when there is no pending row. -/
def maxPendingOrder (db : TodoDB) : Option Int :=
  ((pendingOf db).map TodoItem.order_index).foldl maxStep none

/-- `TodoDatabase.add_todo`: computes `next_order = (max_order or 0) + 1`
(Python `or` yields 0 both when `max_order` is NULL and when it is 0),
then INSERTs a new pending row with the given text, category, tags and
the current time; returns the updated table and `cursor.lastrowid`. -/
def add_todo (db : TodoDB) (text category tags : String) (now : Nat) : TodoDB × Nat :=
  let next_order : Int :=
    (match maxPendingOrder db with
     | none => 0
     | some m => if m = 0 then 0 else m) + 1
  let item : TodoItem :=
    { id := db.next_id, text := text, category := category, tags := tags,
      created_at := now, completed_at := none, status := "pending",
      order_index := next_order }
  (⟨db.todos ++ [item], db.next_id + 1⟩, db.next_id)

/-- Comparison used by ORDER BY order_index ASC: row `t` may precede `u`. -/
def leOrder (t u : TodoItem) : Prop := t.order_index ≤ u.order_index

instance : DecidableRel leOrder := fun t u =>
  inferInstanceAs (Decidable (t.order_index ≤ u.order_index))

instance : IsTotal TodoItem leOrder :=
  ⟨fun t u => Int.le_total t.order_index u.order_index⟩

instance : IsTrans TodoItem leOrder :=
  ⟨fun _ _ _ h h' => Int.le_trans h h'⟩

/-- Strictly smaller order_index (used to identify sorted listings with
pairwise-distinct keys uniquely). -/
def ltOrder (t u : TodoItem) : Prop := t.order_index < u.order_index

instance : IsAntisymm TodoItem ltOrder :=
  ⟨fun _ _ h h' => absurd h' (Int.not_lt.mpr (Int.le_of_lt h))⟩

/-- Comparison used by ORDER BY completed_at DESC: row `t` may precede
`u` when its completion timestamp is at least `u`'s (NULL lowest). -/
def geCompleted (t u : TodoItem) : Prop :=
  u.completed_at.getD 0 ≤ t.completed_at.getD 0

instance : DecidableRel geCompleted := fun t u =>
  inferInstanceAs (Decidable (u.completed_at.getD 0 ≤ t.completed_at.getD 0))

instance : IsTotal TodoItem geCompleted :=
  ⟨fun t u => Nat.le_total (u.completed_at.getD 0) (t.completed_at.getD 0)⟩

instance : IsTrans TodoItem geCompleted :=
  ⟨fun _ _ _ h h' => Nat.le_trans h' h⟩

/-- `TodoDatabase.get_pending_todos`:
SELECT ... WHERE status = "pending" ORDER BY order_index ASC. -/
def get_pending_todos (db : TodoDB) : List TodoItem :=
  List.insertionSort leOrder (pendingOf db)

/-- `TodoDatabase.get_completed_todos`:
SELECT ... WHERE status = "completed" ORDER BY completed_at DESC. -/
def get_completed_todos (db : TodoDB) : List TodoItem :=
  List.insertionSort geCompleted (completedOf db)

/-- `TodoDatabase.complete_todo`: UPDATE todos SET status = "completed",
completed_at = now WHERE id = todo_id.  No status check, no error when
the id is absent: the UPDATE simply matches zero rows. -/
def complete_todo (db : TodoDB) (todo_id : Nat) (now : Nat) : TodoDB :=
  ⟨db.todos.map fun t =>
      if t.id = todo_id then { t with status := "completed", completed_at := some now } else t,
    db.next_id⟩

/-- `TodoDatabase.delete_todo`: DELETE FROM todos WHERE id = todo_id.
No error when the id is absent. -/
def delete_todo (db : TodoDB) (todo_id : Nat) : TodoDB :=
  ⟨db.todos.filter fun t => t.id != todo_id, db.next_id⟩

/-- One UPDATE of the `update_todo_order` loop:
UPDATE todos SET order_index = idx WHERE id = todo_id. -/
def set_order (db : TodoDB) (todo_id : Nat) (idx : Int) : TodoDB :=
  ⟨db.todos.map fun t => if t.id = todo_id then { t with order_index := idx } else t,
    db.next_id⟩

/-- The loop of `update_todo_order`, carrying the running `enumerate` index:
`for order_index, todo_id in enumerate(todo_items): UPDATE ...`. -/
def update_from (db : TodoDB) (i : Nat) : List Nat → TodoDB
  | [] => db
  | tid :: rest => update_from (set_order db tid ((i : Int))) (i + 1) rest

/-- `TodoDatabase.update_todo_order`: assigns `order_index = 0, 1, 2, ...`
to the rows whose ids occur at those positions of the given list.
Performs no validation of the id list whatsoever. -/
def update_todo_order (db : TodoDB) (todo_items : List Nat) : TodoDB :=
  update_from db 0 todo_items

/-- Every field of a row except `order_index`. -/
def nonorderF (t : TodoItem) : Nat × String × String × String × Nat × Option Nat × String :=
  (t.id, t.text, t.category, t.tags, t.created_at, t.completed_at, t.status)

/-- The fields a row receives at creation and that the spec calls immutable:
id, text, category, tags, created_at. -/
def stableF (t : TodoItem) : Nat × String × String × String × Nat :=
  (t.id, t.text, t.category, t.tags, t.created_at)

/-- Position of the first occurrence of `x` in a list of ids. -/
def posIn (x : Nat) : List Nat → Option Nat
  | [] => none
  | y :: ys => if y = x then some 0 else (posIn x ys).map (· + 1)

/-- The per-row effect of running the `update_todo_order` loop over `l`
starting at enumerate index `i`: each matching UPDATE applied in turn. -/
def updAll (i : Nat) (l : List Nat) (t : TodoItem) : TodoItem :=
  match l with
  | [] => t
  | y :: ys => updAll (i + 1) ys (if t.id = y then { t with order_index := (i : Int) } else t)

/-- The net per-row effect of `update_todo_order ids` when `ids` has no
duplicates: a row whose id occurs at position `k` gets `order_index = k`,
all other rows are untouched. -/
def reorderF (ids : List Nat) (t : TodoItem) : TodoItem :=
  match posIn t.id ids with
  | some k => { t with order_index := (k : Int) }
  | none => t

/-- The integer list k+1, k+2, ..., k+n. -/
def rampFrom (k : Nat) : Nat → List Int
  | 0 => []
  | n + 1 => ((k : Int) + 1) :: rampFrom (k + 1) n

/-- A sequence of `add_todo` calls, each argument tuple
(text, category, tags, now). -/
def add_many (db : TodoDB) (xs : List (String × String × String × Nat)) : TodoDB :=
  xs.foldl (fun d x => (add_todo d x.1 x.2.1 x.2.2.1 x.2.2.2).1) db

/-- The rows that a run of `add_many` appends when the ids start at
`idStart` and the current maximum pending order_index is `k` (0 when none). -/
def mkItems (idStart k : Nat) : List (String × String × String × Nat) → List TodoItem
  | [] => []
  | x :: xs =>
      { id := idStart, text := x.1, category := x.2.1, tags := x.2.2.1,
        created_at := x.2.2.2, completed_at := none, status := "pending",
        order_index := (k : Int) + 1 } :: mkItems (idStart + 1) (k + 1) xs

/-! ### Generic lemmas about stable insertion sort -/

theorem orderedInsert_of_forall {α : Type*} {r : α → α → Prop} [DecidableRel r] {a : α}
    {l : List α} (h : ∀ c ∈ l, r a c) : l.orderedInsert r a = a :: l := by
  cases l with
  | nil => rfl
  | cons c m => exact List.orderedInsert_of_le r m (h c (List.mem_cons_self c m))

theorem filter_orderedInsert {α : Type*} {r : α → α → Prop} [DecidableRel r] [IsTrans α r]
    (q : α → Bool) (a : α) (l : List α) (hl : l.Sorted r) :
    (l.orderedInsert r a).filter q =
      if q a then (l.filter q).orderedInsert r a else l.filter q := by
  induction l with
  | nil => by_cases hqa : q a <;> simp [List.orderedInsert, hqa]
  | cons b m ih =>
      have hbm : ∀ c ∈ m, r b c := List.rel_of_sorted_cons hl
      have hm : m.Sorted r := hl.of_cons
      by_cases hab : r a b
      · rw [List.orderedInsert_of_le r m hab]
        by_cases hqa : q a
        · rw [if_pos hqa]
          have hall : ∀ c ∈ (b :: m).filter q, r a c := by
            intro c hc
            have hc' := (List.mem_filter.mp hc).1
            rcases List.mem_cons.mp hc' with rfl | hcm
            · exact hab
            · exact Trans.trans hab (hbm c hcm)
          rw [orderedInsert_of_forall hall]
          simp [List.filter_cons, hqa]
        · rw [if_neg hqa]
          simp [List.filter_cons, hqa]
      · have ho : (b :: m).orderedInsert r a = b :: m.orderedInsert r a := by
          simp [List.orderedInsert, hab]
        rw [ho]
        by_cases hqa : q a <;> by_cases hqb : q b <;>
          simp [List.filter_cons, hqa, hqb, ih hm, List.orderedInsert, hab]

theorem filter_insertionSort {α : Type*} {r : α → α → Prop} [DecidableRel r] [IsTrans α r]
    [IsTotal α r] (q : α → Bool) (l : List α) :
    (l.insertionSort r).filter q = (l.filter q).insertionSort r := by
  induction l with
  | nil => rfl
  | cons a m ih =>
      rw [List.insertionSort, filter_orderedInsert q a _ (List.sorted_insertionSort r m), ih]
      by_cases hqa : q a <;> simp [List.filter_cons, hqa, List.insertionSort]

/-! ### The net effect of the update_todo_order loop -/

theorem update_from_eq (l : List Nat) : ∀ (db : TodoDB) (i : Nat),
    update_from db i l = ⟨db.todos.map (updAll i l), db.next_id⟩ := by
  induction l with
  | nil =>
      intro db i
      simp only [update_from, updAll, List.map_id']
  | cons y ys ih =>
      intro db i
      rw [update_from, ih, set_order]
      simp only [List.map_map]
      rfl

theorem updAll_nonorder (l : List Nat) : ∀ (i : Nat) (t : TodoItem),
    nonorderF (updAll i l t) = nonorderF t := by
  induction l with
  | nil => intro i t; rfl
  | cons y ys ih =>
      intro i t
      rw [updAll, ih]
      by_cases h : t.id = y <;> simp [h, nonorderF]

theorem updAll_id (l : List Nat) (i : Nat) (t : TodoItem) :
    (updAll i l t).id = t.id :=
  congrArg Prod.fst (updAll_nonorder l i t)

theorem updAll_status (l : List Nat) (i : Nat) (t : TodoItem) :
    (updAll i l t).status = t.status :=
  congrArg (fun p => p.2.2.2.2.2.2) (updAll_nonorder l i t)

theorem updAll_not_mem (l : List Nat) : ∀ (i : Nat) (t : TodoItem), t.id ∉ l → updAll i l t = t := by
  induction l with
  | nil => intro i t _; rfl
  | cons y ys ih =>
      intro i t h
      have h1 : t.id ≠ y := fun e => h (e ▸ List.mem_cons_self y ys)
      have h2 : t.id ∉ ys := fun m => h (List.mem_cons_of_mem y m)
      rw [updAll, if_neg h1, ih (i + 1) t h2]

theorem posIn_not_mem {x : Nat} : ∀ {l : List Nat}, x ∉ l → posIn x l = none := by
  intro l
  induction l with
  | nil => intro _; rfl
  | cons y ys ih =>
      intro h
      have h1 : y ≠ x := fun e => h (e ▸ List.mem_cons_self y ys)
      have h2 : x ∉ ys := fun m => h (List.mem_cons_of_mem y m)
      rw [posIn, if_neg h1, ih h2]
      rfl

theorem updAll_posIn (l : List Nat) : ∀ (i : Nat) (t : TodoItem), l.Nodup →
    updAll i l t = (match posIn t.id l with
      | some k => { t with order_index := ((i + k : Int)) }
      | none => t) := by
  induction l with
  | nil => intro i t _; rfl
  | cons y ys ih =>
      intro i t hnd
      have hy : y ∉ ys := (List.nodup_cons.mp hnd).1
      have hys : ys.Nodup := (List.nodup_cons.mp hnd).2
      by_cases h : t.id = y
      · have hp : posIn t.id (y :: ys) = some 0 := by rw [posIn, if_pos h.symm]
        rw [updAll, if_pos h, hp]
        have hne : ({ t with order_index := (i : Int) } : TodoItem).id ∉ ys := by
          simpa [h] using hy
        rw [updAll_not_mem ys (i + 1) _ hne]
        simp
      · have hp : posIn t.id (y :: ys) = (posIn t.id ys).map (· + 1) := by
          rw [posIn, if_neg (fun e => h e.symm)]
        rw [updAll, if_neg h, ih (i + 1) t hys, hp]
        cases hpy : posIn t.id ys with
        | none => simp
        | some k =>
            simp
            omega

theorem update_todo_order_char (db : TodoDB) (ids : List Nat) (h : ids.Nodup) :
    update_todo_order db ids = ⟨db.todos.map (reorderF ids), db.next_id⟩ := by
  rw [update_todo_order, update_from_eq]
  congr 1
  apply List.map_congr_left
  intro t _
  rw [updAll_posIn ids 0 t h, reorderF]
  cases hp : posIn t.id ids <;> simp

/-! ### Concrete stores used in counterexamples and witnesses -/

/-- One Add on a fresh store (row id 1). -/
def dbOne : TodoDB := add_many emptyDB [("a", "", "", 0)]

/-- Two Adds on a fresh store (row ids 1, 2). -/
def dbTwo : TodoDB := add_many emptyDB [("a", "", "", 0), ("b", "", "", 1)]

/-- Three Adds on a fresh store (row ids 1, 2, 3). -/
def dbThree : TodoDB := add_many emptyDB [("a", "", "", 0), ("b", "", "", 1), ("c", "", "", 2)]

/-! ### Claim C4 -/

/-- Claim C4 is false on the code: `add_todo` performs no validation of
`text`.  Called with the empty string on a fresh store it raises nothing,
inserts a row whose text is empty, and returns the new id 1. -/
theorem C4_counterexample :
    (add_todo emptyDB "" "" "" 0).1.todos.map TodoItem.text = [""] ∧
    (add_todo emptyDB "" "" "" 0).2 = 1 := by
  exact ⟨rfl, rfl⟩

/-- Claim C4 (amended): Add never rejects its text — for every text,
empty or not, it appends exactly one new row carrying the given fields
and returns the fresh id `next_id`, which differs from every id already
in the store. -/
theorem C4_amended (db : TodoDB) (text category tags : String) (now : Nat)
    (hfresh : ∀ t ∈ db.todos, t.id < db.next_id) :
    (add_todo db text category tags now).1.todos.map stableF
        = db.todos.map stableF ++ [(db.next_id, text, category, tags, now)] ∧
    (add_todo db text category tags now).2 = db.next_id ∧
    ∀ t ∈ db.todos, t.id ≠ (add_todo db text category tags now).2 := by
  refine ⟨?_, rfl, ?_⟩
  · simp [add_todo, stableF]
  · intro t ht
    exact Nat.ne_of_lt (hfresh t ht)

/-- Witness for C4_amended at a concrete input (empty text on the fresh store). -/
theorem C4_witness :
    (∀ t ∈ emptyDB.todos, t.id < emptyDB.next_id) ∧
    ((add_todo emptyDB "" "" "" 5).1.todos.map stableF
        = emptyDB.todos.map stableF ++ [(emptyDB.next_id, "", "", "", 5)] ∧
     (add_todo emptyDB "" "" "" 5).2 = emptyDB.next_id ∧
     ∀ t ∈ emptyDB.todos, t.id ≠ (add_todo emptyDB "" "" "" 5).2) :=
  ⟨by decide, C4_amended emptyDB "" "" "" 5 (by decide)⟩

/-! ### Claim C5 -/

/-- Claim C5 is false on the code: completing an already-completed row
raises nothing and does not leave the row unchanged — the second
`complete_todo` silently overwrites `completed_at` (10 becomes 20). -/
theorem C5_counterexample :
    (complete_todo (complete_todo dbOne 1 10) 1 20).todos.map TodoItem.completed_at
      = [some 20] ∧ (some 20 : Option Nat) ≠ some 10 := by
  exact ⟨by decide, by decide⟩

/-- Claim C5 (amended): Complete is reentrant — completing the same id a
second time succeeds and behaves exactly as if only the second call had
happened: status stays "completed" and `completed_at` is overwritten
with the newer time. -/
theorem C5_amended (db : TodoDB) (i t1 t2 : Nat) :
    complete_todo (complete_todo db i t1) i t2 = complete_todo db i t2 := by
  simp only [complete_todo, List.map_map]
  congr 1
  apply List.map_congr_left
  intro t _
  by_cases h : t.id = i <;> simp [Function.comp, h]

/-! ### Claim C6 -/

/-- Claim C6 is false on the code: `complete_todo` and `delete_todo` on
an id that exists nowhere (5 in a store whose only row has id 1) raise
no NotFoundError — both return normally, with the store unchanged. -/
theorem C6_counterexample :
    complete_todo dbOne 5 99 = dbOne ∧ delete_todo dbOne 5 = dbOne := by
  exact ⟨by decide, by decide⟩

/-- Claim C6 (amended): Complete and Delete on an absent id are silent
no-ops: the UPDATE and DELETE statements match zero rows, no error of
any kind is reported, and the store is returned unchanged. -/
theorem C6_amended (db : TodoDB) (i now : Nat)
    (h : ∀ t ∈ db.todos, t.id ≠ i) :
    complete_todo db i now = db ∧ delete_todo db i = db := by
  constructor
  · have hpt : ∀ t ∈ db.todos,
        (if t.id = i then { t with status := "completed", completed_at := some now } else t)
          = (fun t : TodoItem => t) t := fun t ht => if_neg (h t ht)
    rw [complete_todo, List.map_congr_left hpt, List.map_id']
  · have hf : (db.todos.filter fun t => t.id != i) = db.todos :=
      List.filter_eq_self.mpr fun t ht => by simp [h t ht]
    rw [delete_todo, hf]

/-- Witness for C6_amended at a concrete input (id 5 absent from dbOne). -/
theorem C6_witness :
    (∀ t ∈ dbOne.todos, t.id ≠ 5) ∧
    (complete_todo dbOne 5 99 = dbOne ∧ delete_todo dbOne 5 = dbOne) :=
  ⟨by decide, C6_amended dbOne 5 99 (by decide)⟩

/-! ### Claim C10 -/

/-- Claim C10: `update_todo_order` writes only `order_index`.  The
AUTOINCREMENT counter is untouched; every row keeps its id, text,
category, tags, created_at, completed_at and status; and a row whose id
does not occur in the list is entirely unchanged (the rows whose id does
occur are exactly transformed by the loop effect `updAll 0 ids`). -/
theorem C10_reorder_frame (db : TodoDB) (ids : List Nat) :
    (update_todo_order db ids).next_id = db.next_id ∧
    (update_todo_order db ids).todos.map nonorderF = db.todos.map nonorderF ∧
    (update_todo_order db ids).todos
      = db.todos.map fun t => if t.id ∈ ids then updAll 0 ids t else t := by
  rw [update_todo_order, update_from_eq]
  refine ⟨rfl, ?_, ?_⟩
  · rw [List.map_map]
    exact List.map_congr_left fun t _ => updAll_nonorder ids 0 t
  · apply List.map_congr_left
    intro t _
    by_cases h : t.id ∈ ids
    · rw [if_pos h]
    · rw [if_neg h, updAll_not_mem ids 0 t h]

/-! ### Claim C3 -/

/-- Claim C3 is false on the code: `update_todo_order` performs no
validation.  Called on a store whose pending ids are 1 and 2 with the
list [2] — which omits the currently-pending id 1 — it raises no
ValidationError and does not leave the store unchanged (row 2 gets
order_index 0). -/
theorem C3_counterexample :
    update_todo_order dbTwo [2] ≠ dbTwo := by decide

/-- Claim C3 (amended): Reorder never fails and never checks its input
against the pending id set.  For any duplicate-free id list it assigns
`order_index = k` to the row (of any status) whose id sits at position
`k` of the list, and leaves every other row untouched; in particular,
when the list is exactly the pending ids in the desired order it assigns
order_index 0, 1, 2, ... following the given sequence.  With a
mismatched id set the store may still be modified. -/
theorem C3_amended (db : TodoDB) (ids : List Nat) (h : ids.Nodup) :
    update_todo_order db ids = ⟨db.todos.map (reorderF ids), db.next_id⟩ :=
  update_todo_order_char db ids h

/-- Witness for C3_amended at a concrete input. -/
theorem C3_witness :
    ([2, 1] : List Nat).Nodup ∧
    update_todo_order dbTwo [2, 1]
      = ⟨dbTwo.todos.map (reorderF [2, 1]), dbTwo.next_id⟩ :=
  ⟨by decide, C3_amended dbTwo [2, 1] (by decide)⟩

/-! ### Claim C2 -/

/-- Claim C2 is false on the code: deleting the pending row with id 2 from
a store whose pending order_index values are 1, 2, 3 leaves the remaining
pending rows with order_index 1 and 3 — not the gap-free 0..n-1 that the
compaction invariant requires (no renumbering happens at all). -/
theorem C2_counterexample :
    (get_pending_todos (delete_todo dbThree 2)).map TodoItem.order_index ≠ [0, 1] := by
  decide

/-- Claim C2 (amended): Delete and Complete perform no renumbering.
ListPending after deleting or completing id `i` is exactly the previous
ListPending with any row of id `i` dropped: every surviving pending row
keeps its order_index and relative position, but the values are in
general not 0..n-1 — the removed slot leaves a gap. -/
theorem C2_amended (db : TodoDB) (i now : Nat) :
    get_pending_todos (delete_todo db i)
        = (get_pending_todos db).filter (fun t => t.id != i) ∧
    get_pending_todos (complete_todo db i now)
        = (get_pending_todos db).filter (fun t => t.id != i) := by
  constructor
  · rw [get_pending_todos, get_pending_todos, filter_insertionSort]
    congr 1
    simp only [pendingOf, delete_todo]
    rw [List.filter_filter, List.filter_filter]
    exact List.filter_congr fun t _ => Bool.and_comm _ _
  · rw [get_pending_todos, get_pending_todos, filter_insertionSort]
    congr 1
    simp only [pendingOf, complete_todo]
    rw [List.filter_map]
    have h1 : ∀ t ∈ db.todos,
        (((fun t : TodoItem => t.status == "pending") ∘ fun t =>
            if t.id = i then { t with status := "completed", completed_at := some now } else t) t)
          = ((t.id != i) && (t.status == "pending")) := by
      intro t _
      by_cases h : t.id = i
      · simp [Function.comp, h]
      · simp [Function.comp, h]
    rw [List.filter_congr h1]
    have h2 : ∀ t ∈ db.todos.filter fun t => (t.id != i) && (t.status == "pending"),
        (if t.id = i then { t with status := "completed", completed_at := some now } else t)
          = (fun t : TodoItem => t) t := by
      intro t ht
      have hm := (List.mem_filter.mp ht).2
      simp only [Bool.and_eq_true, bne_iff_ne] at hm
      exact if_neg hm.1
    rw [List.map_congr_left h2, List.map_id', List.filter_filter]

/-! ### Claim C9 -/

/-- A store in which rows 1, 2, 3 were completed at times 10 < 20 < 30. -/
def dbCompleted : TodoDB :=
  complete_todo (complete_todo (complete_todo dbThree 1 10) 2 20) 3 30

/-- What the source's SQL query SELECT ... WHERE status = "completed"
ORDER BY completed_at DESC guarantees about its result, and nothing more:
the result holds exactly the completed rows, in some order that is
descending on completed_at.  The query has no secondary sort key, and
SQLite leaves the relative order of rows with equal keys unspecified; the
executable `get_completed_todos` above is one admissible refinement. -/
def completedQueryResult (db : TodoDB) (l : List TodoItem) : Prop :=
  List.Perm l (completedOf db) ∧ l.Sorted geCompleted

instance (db : TodoDB) (l : List TodoItem) : Decidable (completedQueryResult db l) :=
  inferInstanceAs (Decidable (List.Perm l (completedOf db) ∧ l.Sorted geCompleted))

/-- Strictly larger completed_at (used to identify descending listings
with pairwise-distinct keys uniquely). -/
def gtCompleted (t u : TodoItem) : Prop :=
  u.completed_at.getD 0 < t.completed_at.getD 0

instance : IsAntisymm TodoItem gtCompleted :=
  ⟨fun _ _ h h' => absurd h' (Nat.not_lt.mpr (Nat.le_of_lt h))⟩

/-- A store whose two rows (ids 1, 2) were completed at the same time 10. -/
def dbTie : TodoDB := complete_todo (complete_todo dbTwo 1 10) 2 10

/-- Claim C9 is false on the code: the query ORDER BY completed_at DESC
has no secondary sort key, so on a store with two rows completed at the
same time 10 both the insertion order [1, 2] and its reverse [2, 1]
satisfy everything the query establishes.  The code therefore does not
determine the relative order of equal-timestamp rows, while the claim
requires insertion/id order, deterministically. -/
theorem C9_counterexample :
    completedQueryResult dbTie (completedOf dbTie) ∧
    completedQueryResult dbTie (completedOf dbTie).reverse ∧
    (completedOf dbTie).reverse.map TodoItem.id ≠ (completedOf dbTie).map TodoItem.id :=
  ⟨⟨List.Perm.refl _, by decide⟩, ⟨List.reverse_perm _, by decide⟩, by decide⟩

/-- Claim C9 (amended): ListCompleted satisfies the query contract — it
returns exactly the completed records, in an order descending on
completed_at, so completions at times T1 < T2 < T3 list as [T3, T2, T1] —
and whenever the completed records' sort keys are pairwise distinct, that
contract determines the listing uniquely; but records sharing a
completed_at timestamp have no relative order specified by the code, so
the claim's tie-break (insertion/id order) and its determinism for such
stores are not established. -/
theorem C9_amended (db : TodoDB) (l1 l2 : List TodoItem)
    (hnd : ((completedOf db).map fun t => t.completed_at.getD 0).Nodup)
    (h1 : completedQueryResult db l1) (h2 : completedQueryResult db l2) :
    completedQueryResult db (get_completed_todos db) ∧
    l1 = l2 ∧
    (get_completed_todos dbCompleted).map TodoItem.completed_at
        = [some 30, some 20, some 10] := by
  refine ⟨⟨List.perm_insertionSort _ _, List.sorted_insertionSort _ _⟩, ?_, by decide⟩
  obtain ⟨hp1, hs1⟩ := h1
  obtain ⟨hp2, hs2⟩ := h2
  have hnd1 : (l1.map fun t => t.completed_at.getD 0).Nodup :=
    ((hp1.map fun t => t.completed_at.getD 0).symm).nodup hnd
  have hnd2 : (l2.map fun t => t.completed_at.getD 0).Nodup :=
    ((hp2.map fun t => t.completed_at.getD 0).symm).nodup hnd
  have hne1 : l1.Pairwise fun a b => a.completed_at.getD 0 ≠ b.completed_at.getD 0 :=
    List.pairwise_map.mp
      (hnd1 : (l1.map fun t => t.completed_at.getD 0).Pairwise (· ≠ ·))
  have hne2 : l2.Pairwise fun a b => a.completed_at.getD 0 ≠ b.completed_at.getD 0 :=
    List.pairwise_map.mp
      (hnd2 : (l2.map fun t => t.completed_at.getD 0).Pairwise (· ≠ ·))
  have hlt1 : l1.Pairwise gtCompleted :=
    (hs1.and hne1).imp fun hab => lt_of_le_of_ne hab.1 (Ne.symm hab.2)
  have hlt2 : l2.Pairwise gtCompleted :=
    (hs2.and hne2).imp fun hab => lt_of_le_of_ne hab.1 (Ne.symm hab.2)
  exact List.eq_of_perm_of_sorted (hp1.trans hp2.symm) hlt1 hlt2

/-- Witness for C9_amended at a concrete input: three completions at the
pairwise-distinct times 10 < 20 < 30. -/
theorem C9_witness :
    (((completedOf dbCompleted).map fun t => t.completed_at.getD 0).Nodup ∧
     completedQueryResult dbCompleted (get_completed_todos dbCompleted)) ∧
    (completedQueryResult dbCompleted (get_completed_todos dbCompleted) ∧
     get_completed_todos dbCompleted = get_completed_todos dbCompleted ∧
     (get_completed_todos dbCompleted).map TodoItem.completed_at
        = [some 30, some 20, some 10]) :=
  ⟨⟨by decide, by decide⟩,
   C9_amended dbCompleted (get_completed_todos dbCompleted) (get_completed_todos dbCompleted)
     (by decide) (by decide) (by decide)⟩

/-! ### Claim C7 -/

/-- A store whose sole row (id 1, order_index 1) has been completed. -/
def dbDone : TodoDB := complete_todo dbOne 1 10

/-- Claim C7 is false on the code: a Reorder whose id list mentions a
completed record's id does alter that record — `update_todo_order` has no
status guard, so it rewrites the completed row's order_index (here from 1
to 0). -/
theorem C7_counterexample :
    (update_todo_order dbDone [1]).todos.map TodoItem.order_index
        ≠ dbDone.todos.map TodoItem.order_index := by
  decide

/-- Claim C7 (amended): a completed record's id, text, category, tags and
created_at are never altered by any operation, and its status can never
leave "completed"; but its completed_at is overwritten by any further
Complete on its id, and its order_index is rewritten by any Reorder whose
list mentions its id.  Delete only removes rows, and Add leaves all
existing rows untouched. -/
theorem C7_amended (db : TodoDB) (i now : Nat) (ids : List Nat)
    (text category tags : String) (t0 : Nat) :
    (complete_todo db i now).todos.map stableF = db.todos.map stableF ∧
    ((complete_todo db i now).todos.map fun t => t.status == "completed")
        = (db.todos.map fun t => (t.status == "completed") || (t.id == i)) ∧
    (update_todo_order db ids).todos.map stableF = db.todos.map stableF ∧
    ((update_todo_order db ids).todos.map fun t => (t.completed_at, t.status))
        = (db.todos.map fun t => (t.completed_at, t.status)) ∧
    (delete_todo db i).todos.Sublist db.todos ∧
    (add_todo db text category tags t0).1.todos.take db.todos.length = db.todos := by
  refine ⟨?_, ?_, ?_, ?_, List.filter_sublist _, ?_⟩
  · rw [complete_todo, List.map_map]
    apply List.map_congr_left
    intro t _
    by_cases h : t.id = i <;> simp [Function.comp, h, stableF]
  · rw [complete_todo, List.map_map]
    apply List.map_congr_left
    intro t _
    by_cases h : t.id = i <;> simp [Function.comp, h]
  · rw [update_todo_order, update_from_eq, List.map_map]
    apply List.map_congr_left
    intro t _
    exact congrArg (fun p => (p.1, p.2.1, p.2.2.1, p.2.2.2.1, p.2.2.2.2.1))
      (updAll_nonorder ids 0 t)
  · rw [update_todo_order, update_from_eq, List.map_map]
    apply List.map_congr_left
    intro t _
    exact congrArg (fun p => (p.2.2.2.2.2.1, p.2.2.2.2.2.2)) (updAll_nonorder ids 0 t)
  · simp only [add_todo]
    exact List.take_left _ _

/-! ### Arithmetic of the order_index ramp produced by successive Adds -/

theorem rampFrom_snoc (n : Nat) : ∀ k : Nat,
    rampFrom k (n + 1) = rampFrom k n ++ [((k + n : Int)) + 1] := by
  induction n with
  | zero => intro k; simp [rampFrom]
  | succ n ih =>
      intro k
      rw [rampFrom, ih (k + 1), rampFrom]
      have h1 : ((k + 1 : Nat) : Int) + (n : Int) + 1 = (k : Int) + ((n + 1 : Nat) : Int) + 1 := by
        omega
      rw [h1, List.cons_append]

theorem rampFoldSome (n : Nat) : ∀ (k : Nat) (m : Int), n ≠ 0 →
    (rampFrom k n).foldl maxStep (some m) = some (max m (((k + n : Int)))) := by
  induction n with
  | zero => intro k m hn; exact absurd rfl hn
  | succ n ih =>
      intro k m _
      rw [rampFrom, List.foldl_cons]
      have hstep : maxStep (some m) ((k : Int) + 1) = some (max m ((k : Int) + 1)) := rfl
      rw [hstep]
      by_cases hn : n = 0
      · subst hn
        simp only [rampFrom, List.foldl_nil]
        congr 2
      · rw [ih (k + 1) (max m ((k : Int) + 1)) hn]
        have h1 : ((k + 1 : Nat) : Int) + (n : Int) = (k : Int) + ((n + 1 : Nat) : Int) := by
          omega
        rw [h1]
        have hle : (k : Int) + 1 ≤ (k : Int) + ((n + 1 : Nat) : Int) := by omega
        rw [max_assoc, max_eq_right hle]

theorem rampFoldNone (n k : Nat) :
    (rampFrom k n).foldl maxStep none
      = if n = 0 then none else some (((k + n : Int))) := by
  cases n with
  | zero => rfl
  | succ n =>
      rw [rampFrom, List.foldl_cons]
      have hstep : maxStep none ((k : Int) + 1) = some ((k : Int) + 1) := rfl
      rw [hstep, if_neg (Nat.succ_ne_zero n)]
      by_cases hn : n = 0
      · subst hn
        simp only [rampFrom, List.foldl_nil]
        congr 1
      · rw [rampFoldSome n (k + 1) _ hn]
        have h1 : ((k + 1 : Nat) : Int) + (n : Int) = (k : Int) + ((n + 1 : Nat) : Int) := by
          omega
        rw [h1]
        have hle : (k : Int) + 1 ≤ (k : Int) + ((n + 1 : Nat) : Int) := by omega
        rw [max_eq_right hle]

theorem maxPendingOrder_of_ramp {db : TodoDB} {k : Nat}
    (h : (pendingOf db).map TodoItem.order_index = rampFrom 0 k) :
    maxPendingOrder db = if k = 0 then none else some ((k : Int)) := by
  rw [maxPendingOrder, h, rampFoldNone]
  simp

theorem rampFrom_lower (n : Nat) : ∀ (k : Nat) (x : Int),
    x ∈ rampFrom k n → (k : Int) + 1 ≤ x := by
  induction n with
  | zero => intro k x hx; simp [rampFrom] at hx
  | succ n ih =>
      intro k x hx
      rw [rampFrom, List.mem_cons] at hx
      rcases hx with rfl | hx
      · exact le_refl _
      · have := ih (k + 1) x hx
        omega

theorem rampFrom_pairwise (n : Nat) : ∀ k : Nat,
    (rampFrom k n).Pairwise (· ≤ ·) := by
  induction n with
  | zero => intro k; exact List.Pairwise.nil
  | succ n ih =>
      intro k
      rw [rampFrom]
      refine List.Pairwise.cons ?_ (ih (k + 1))
      intro x hx
      have := rampFrom_lower n (k + 1) x hx
      omega

theorem rampFrom_eq_range (n : Nat) : ∀ k : Nat,
    rampFrom k n = (List.range n).map fun j : Nat => (k : Int) + (j : Int) + 1 := by
  induction n with
  | zero => intro k; rfl
  | succ n ih =>
      intro k
      rw [List.range_succ_eq_map, List.map_cons, List.map_map, rampFrom, ih (k + 1)]
      congr 1
      apply List.map_congr_left
      intro j _
      simp only [Function.comp_apply]
      omega

/-! ### The rows appended by a sequence of Adds -/

theorem mkItems_order_map (xs : List (String × String × String × Nat)) : ∀ (i k : Nat),
    (mkItems i k xs).map TodoItem.order_index = rampFrom k xs.length := by
  induction xs with
  | nil => intro i k; rfl
  | cons x xs ih =>
      intro i k
      rw [mkItems, List.map_cons, ih (i + 1) (k + 1), List.length_cons, rampFrom]

theorem mkItems_fields_map (xs : List (String × String × String × Nat)) : ∀ (i k : Nat),
    (mkItems i k xs).map (fun t => (t.text, t.category, t.tags, t.created_at))
      = xs.map fun x => (x.1, x.2.1, x.2.2.1, x.2.2.2) := by
  induction xs with
  | nil => intro i k; rfl
  | cons x xs ih =>
      intro i k
      rw [mkItems, List.map_cons, ih (i + 1) (k + 1), List.map_cons]

theorem sorted_of_order_ramp {l : List TodoItem} {k : Nat}
    (h : l.map TodoItem.order_index = rampFrom k l.length) : l.Sorted leOrder := by
  have hpw : (l.map TodoItem.order_index).Pairwise (· ≤ ·) := by
    rw [h]; exact rampFrom_pairwise l.length k
  exact (List.pairwise_map.mp hpw).imp fun hab => hab

theorem add_pending {db : TodoDB} {k : Nat}
    (h : (pendingOf db).map TodoItem.order_index = rampFrom 0 k)
    (text category tags : String) (now : Nat) :
    pendingOf (add_todo db text category tags now).1
      = pendingOf db ++
        [{ id := db.next_id, text := text, category := category, tags := tags,
           created_at := now, completed_at := none, status := "pending",
           order_index := (k : Int) + 1 }] := by
  have hnext :
      (match maxPendingOrder db with
       | none => (0 : Int)
       | some m => if m = 0 then 0 else m) + 1 = (k : Int) + 1 := by
    rw [maxPendingOrder_of_ramp h]
    by_cases hk : k = 0
    · subst hk; simp
    · rw [if_neg hk]
      have : (k : Int) ≠ 0 := by omega
      simp [this]
  simp only [add_todo, pendingOf, List.filter_append, hnext]
  rfl

theorem add_many_pending (xs : List (String × String × String × Nat)) :
    ∀ (db : TodoDB) (k : Nat),
    (pendingOf db).map TodoItem.order_index = rampFrom 0 k →
    pendingOf (add_many db xs) = pendingOf db ++ mkItems db.next_id k xs := by
  induction xs with
  | nil => intro db k _; simp [add_many, mkItems]
  | cons x xs ih =>
      intro db k h
      have hstep : add_many db (x :: xs)
          = add_many (add_todo db x.1 x.2.1 x.2.2.1 x.2.2.2).1 xs := rfl
      have hadd := add_pending h x.1 x.2.1 x.2.2.1 x.2.2.2
      have h' : (pendingOf (add_todo db x.1 x.2.1 x.2.2.1 x.2.2.2).1).map TodoItem.order_index
          = rampFrom 0 (k + 1) := by
        rw [hadd, List.map_append, h, rampFrom_snoc]
        simp
      have hnext : (add_todo db x.1 x.2.1 x.2.2.1 x.2.2.2).1.next_id = db.next_id + 1 := rfl
      rw [hstep, ih _ (k + 1) h', hadd, hnext, List.append_assoc]
      rfl

theorem rampFrom_length (n : Nat) : ∀ k : Nat, (rampFrom k n).length = n := by
  induction n with
  | zero => intro k; rfl
  | succ n ih => intro k; rw [rampFrom, List.length_cons, ih (k + 1)]

theorem mkItems_length (xs : List (String × String × String × Nat)) : ∀ (i k : Nat),
    (mkItems i k xs).length = xs.length := by
  induction xs with
  | nil => intro i k; rfl
  | cons x xs ih =>
      intro i k
      rw [mkItems, List.length_cons, ih (i + 1) (k + 1), List.length_cons]

/-! ### Claim C1 -/

/-- Claim C1 is false on the code: a single Add on a store with no pending
records assigns order_index 1, not 0 — `(max_order or 0) + 1` turns the
NULL aggregate into 0 and then adds 1. -/
theorem C1_counterexample :
    (get_pending_todos dbOne).map TodoItem.order_index = [1] ∧
    ([1] : List Int) ≠ [0] :=
  ⟨by decide, by decide⟩

/-- Claim C1 (amended): starting from any store with no pending records,
a sequence of n Adds yields a ListPending that returns the n new items in
the order they were added, carrying the submitted text, category, tags
and creation time — but with order_index values exactly 1..n (the list
`rampFrom 0 n`), not 0..n-1.  Each Add still assigns (current maximum
pending order_index) + 1; only the base case differs from the claim: with
no pending records it assigns 1. -/
theorem C1_amended (db : TodoDB) (xs : List (String × String × String × Nat))
    (h : pendingOf db = []) :
    (get_pending_todos (add_many db xs)).map TodoItem.order_index = rampFrom 0 xs.length ∧
    ((get_pending_todos (add_many db xs)).map fun t => (t.text, t.category, t.tags, t.created_at))
        = (xs.map fun x => (x.1, x.2.1, x.2.2.1, x.2.2.2)) ∧
    rampFrom 0 xs.length = (List.range xs.length).map fun j : Nat => (j : Int) + 1 := by
  have h0 : (pendingOf db).map TodoItem.order_index = rampFrom 0 0 := by rw [h]; rfl
  have hp := add_many_pending xs db 0 h0
  rw [h, List.nil_append] at hp
  have hsorted : (pendingOf (add_many db xs)).Sorted leOrder := by
    rw [hp]
    exact sorted_of_order_ramp (by rw [mkItems_order_map, mkItems_length])
  have heq : get_pending_todos (add_many db xs) = mkItems db.next_id 0 xs := by
    rw [get_pending_todos, hsorted.insertionSort_eq, hp]
  refine ⟨?_, ?_, ?_⟩
  · rw [heq, mkItems_order_map]
  · rw [heq, mkItems_fields_map]
  · rw [rampFrom_eq_range]
    apply List.map_congr_left
    intro j _
    omega

/-- Witness for C1_amended at a concrete input: two Adds on the fresh store. -/
theorem C1_witness :
    pendingOf emptyDB = [] ∧
    ((get_pending_todos (add_many emptyDB [("a", "x", "y", 3), ("b", "", "", 4)])).map
        TodoItem.order_index
      = rampFrom 0 ([("a", "x", "y", 3), ("b", "", "", 4)]
          : List (String × String × String × Nat)).length ∧
     ((get_pending_todos (add_many emptyDB [("a", "x", "y", 3), ("b", "", "", 4)])).map
        fun t => (t.text, t.category, t.tags, t.created_at))
      = (([("a", "x", "y", 3), ("b", "", "", 4)] : List (String × String × String × Nat)).map
          fun x => (x.1, x.2.1, x.2.2.1, x.2.2.2)) ∧
     rampFrom 0 ([("a", "x", "y", 3), ("b", "", "", 4)]
          : List (String × String × String × Nat)).length
      = (List.range ([("a", "x", "y", 3), ("b", "", "", 4)]
          : List (String × String × String × Nat)).length).map fun j : Nat => (j : Int) + 1) :=
  ⟨rfl, C1_amended emptyDB [("a", "x", "y", 3), ("b", "", "", 4)] rfl⟩

/-! ### Effect of a Reorder given the current pending order (claim C8) -/

theorem reorderF_nonorder (ids : List Nat) (t : TodoItem) :
    nonorderF (reorderF ids t) = nonorderF t := by
  cases hp : posIn t.id ids <;> simp [reorderF, hp, nonorderF]

theorem reorderF_status (ids : List Nat) (t : TodoItem) :
    (reorderF ids t).status = t.status :=
  congrArg (fun p => p.2.2.2.2.2.2) (reorderF_nonorder ids t)

theorem reorderF_idem (ids : List Nat) (t : TodoItem) :
    reorderF ids (reorderF ids t) = reorderF ids t := by
  cases hp : posIn t.id ids <;> simp [reorderF, hp]

theorem pendingOf_update (db : TodoDB) (ids : List Nat) (h : ids.Nodup) :
    pendingOf (update_todo_order db ids) = (pendingOf db).map (reorderF ids) := by
  rw [update_todo_order_char db ids h]
  simp only [pendingOf]
  rw [List.filter_map]
  congr 1
  apply List.filter_congr
  intro t _
  simp only [Function.comp_apply]
  rw [reorderF_status]

theorem posIn_self (l : List Nat) (h : l.Nodup) :
    (l.map fun x => posIn x l) = (List.range l.length).map some := by
  induction l with
  | nil => rfl
  | cons y ys ih =>
      have hy : y ∉ ys := (List.nodup_cons.mp h).1
      have hys : ys.Nodup := (List.nodup_cons.mp h).2
      rw [List.map_cons, List.length_cons, List.range_succ_eq_map, List.map_cons, List.map_map]
      congr 1
      · rw [posIn, if_pos rfl]
      · have hstep : ∀ x ∈ ys,
            posIn x (y :: ys) = ((fun x => posIn x ys) x).map (· + 1) := by
          intro x hx
          have hne : y ≠ x := fun e => hy (e ▸ hx)
          rw [posIn, if_neg hne]
        rw [List.map_congr_left hstep]
        have hcomp : (ys.map fun x => ((fun x => posIn x ys) x).map (· + 1))
            = (ys.map fun x => posIn x ys).map (Option.map (· + 1)) := by
          rw [List.map_map]
          rfl
        rw [hcomp, ih hys, List.map_map]
        apply List.map_congr_left
        intro j _
        rfl

theorem map_order_of_posIn (P : List TodoItem) : ∀ (L : List Nat) (ids : List Nat),
    (P.map fun t => posIn t.id ids) = L.map some →
    ((P.map (reorderF ids)).map TodoItem.order_index) = L.map fun j : Nat => (j : Int) := by
  induction P with
  | nil =>
      intro L ids h
      have : L = [] := by
        cases L with
        | nil => rfl
        | cons j L' => simp at h
      rw [this]
      rfl
  | cons t P' ih =>
      intro L ids h
      cases L with
      | nil => simp at h
      | cons j L' =>
          rw [List.map_cons, List.map_cons] at h
          injection h with h1 h2
          rw [List.map_cons, List.map_cons, List.map_cons]
          congr 1
          · simp [reorderF, h1]
          · exact ih L' ids h2

/-! ### Claim C8 -/

/-- Claim C8 is false on the code: on a store holding one freshly added
pending row (id 1, order_index 1), Reorder with the already-current
pending order [1] changes the store — the row's order_index is renumbered
from 1 to 0. -/
theorem C8_counterexample :
    [1] = (get_pending_todos dbOne).map TodoItem.id ∧
    update_todo_order dbOne [1] ≠ dbOne :=
  ⟨by decide, by decide⟩

/-- Claim C8 (amended): Reorder with the pending ids in their
already-current ListPending order preserves the pending listing up to
order_index — ListPending afterwards holds the same records, in the same
order, with every field except order_index unchanged — but the
order_index values themselves are renumbered to 0..n-1, so the call is
observable whenever they were not already 0..n-1.  Reorder is idempotent
only in the algebraic sense: repeating the same call changes nothing
further. -/
theorem C8_amended (db : TodoDB) (ids : List Nat)
    (hnd : (db.todos.map TodoItem.id).Nodup)
    (hids : ids = (get_pending_todos db).map TodoItem.id) :
    ((get_pending_todos (update_todo_order db ids)).map nonorderF
        = (get_pending_todos db).map nonorderF) ∧
    ((get_pending_todos (update_todo_order db ids)).map TodoItem.order_index
        = (List.range ids.length).map fun j : Nat => (j : Int)) ∧
    update_todo_order (update_todo_order db ids) ids = update_todo_order db ids := by
  have hnd_pending : ((pendingOf db).map TodoItem.id).Nodup :=
    List.Nodup.sublist (List.Sublist.map TodoItem.id (List.filter_sublist db.todos)) hnd
  have hperm : List.Perm (get_pending_todos db) (pendingOf db) :=
    List.perm_insertionSort leOrder (pendingOf db)
  have hnd_P : ((get_pending_todos db).map TodoItem.id).Nodup :=
    ((hperm.map TodoItem.id).symm).nodup hnd_pending
  have hids_nd : ids.Nodup := by rw [hids]; exact hnd_P
  have hpend' : pendingOf (update_todo_order db ids)
      = (pendingOf db).map (reorderF ids) := pendingOf_update db ids hids_nd
  have hposP : ((get_pending_todos db).map fun t => posIn t.id ids)
      = (List.range ids.length).map some := by
    have hmm : ((get_pending_todos db).map fun t => posIn t.id ids)
        = ((get_pending_todos db).map TodoItem.id).map fun x => posIn x ids := by
      rw [List.map_map]
      rfl
    rw [hmm, ← hids]
    exact posIn_self ids hids_nd
  have horderY : (((get_pending_todos db).map (reorderF ids)).map TodoItem.order_index)
      = (List.range ids.length).map fun j : Nat => (j : Int) :=
    map_order_of_posIn (get_pending_todos db) (List.range ids.length) ids (by
      rw [hposP])
  have hkeysY : (((get_pending_todos db).map (reorderF ids)).map TodoItem.order_index).Pairwise
      (· < ·) := by
    rw [horderY]
    refine List.pairwise_map.mpr ((List.pairwise_lt_range ids.length).imp ?_)
    intro a b hab
    exact_mod_cast hab
  have hsortedY : ((get_pending_todos db).map (reorderF ids)).Pairwise ltOrder :=
    (List.pairwise_map.mp hkeysY).imp fun hab => hab
  have hpermX : List.Perm (get_pending_todos (update_todo_order db ids))
      (pendingOf (update_todo_order db ids)) :=
    List.perm_insertionSort leOrder (pendingOf (update_todo_order db ids))
  rw [hpend'] at hpermX
  have hpermXY : List.Perm (get_pending_todos (update_todo_order db ids))
      ((get_pending_todos db).map (reorderF ids)) :=
    hpermX.trans ((hperm.map (reorderF ids)).symm)
  have hndY : (((get_pending_todos db).map (reorderF ids)).map TodoItem.order_index).Nodup := by
    rw [horderY]
    exact (List.nodup_map_iff Nat.cast_injective).mpr (List.nodup_range ids.length)
  have hndX : ((get_pending_todos (update_todo_order db ids)).map TodoItem.order_index).Nodup :=
    ((hpermXY.map TodoItem.order_index).symm).nodup hndY
  have hneX : (get_pending_todos (update_todo_order db ids)).Pairwise
      fun a b => a.order_index ≠ b.order_index :=
    List.pairwise_map.mp
      (hndX : ((get_pending_todos (update_todo_order db ids)).map
          TodoItem.order_index).Pairwise (· ≠ ·))
  have hleX : (get_pending_todos (update_todo_order db ids)).Pairwise leOrder :=
    List.sorted_insertionSort leOrder (pendingOf (update_todo_order db ids))
  have hsortedX : (get_pending_todos (update_todo_order db ids)).Pairwise ltOrder :=
    (hleX.and hneX).imp fun hab => lt_of_le_of_ne hab.1 hab.2
  have heq : get_pending_todos (update_todo_order db ids)
      = (get_pending_todos db).map (reorderF ids) :=
    List.eq_of_perm_of_sorted hpermXY hsortedX hsortedY
  refine ⟨?_, ?_, ?_⟩
  · rw [heq, List.map_map]
    exact List.map_congr_left fun t _ => reorderF_nonorder ids t
  · rw [heq]
    exact horderY
  · rw [update_todo_order_char db ids hids_nd,
      update_todo_order_char _ ids hids_nd]
    congr 1
    rw [List.map_map]
    exact List.map_congr_left fun t _ => reorderF_idem ids t

/-- Witness for C8_amended at a concrete input: two pending rows with
their current ListPending order [1, 2]. -/
theorem C8_witness :
    ((dbTwo.todos.map TodoItem.id).Nodup ∧
     [1, 2] = (get_pending_todos dbTwo).map TodoItem.id) ∧
    (((get_pending_todos (update_todo_order dbTwo [1, 2])).map nonorderF
        = (get_pending_todos dbTwo).map nonorderF) ∧
     ((get_pending_todos (update_todo_order dbTwo [1, 2])).map TodoItem.order_index
        = (List.range ([1, 2] : List Nat).length).map fun j : Nat => (j : Int)) ∧
     update_todo_order (update_todo_order dbTwo [1, 2]) [1, 2]
        = update_todo_order dbTwo [1, 2]) :=
  ⟨⟨by decide, by decide⟩, C8_amended dbTwo [1, 2] (by decide) (by decide)⟩
